import Mathlib

/-!
Shallow embedding of the EasyByteParserCpp core (src/src/ByteParser.cpp,
src/src/Utils.hpp, src/include/EasyByteParserCpp/ByteParser.hpp) and proofs
about it.

Modelling conventions:
* machine integers are `Nat`/`Int`; a C `uint8_t` read from a buffer is
  normalised with `% 256`, two's-complement reinterpretation is explicit;
* C `double` values (the `scale`/`bias` members and decoded results) are
  modelled as exact rationals `ℚ`; every property proved here depends only
  on variant selection, error behaviour and exact integer arithmetic, never
  on IEEE-754 rounding;
* `std::vector<uint8_t> usageMap` is modelled as a total function
  `Nat → Nat` (byte index to 8-bit ownership mask); the code only ever
  touches indices below `totalLength`;
* the result `std::map<std::string, ParsedValue>` is modelled as an
  association list with insert-or-assign semantics;
* a C++ `throw` escaping a function is modelled with `Except.error` carrying
  the message (for `std::bad_variant_access`, the exception type name).
-/

namespace EasyByteParser

set_option maxRecDepth 16000

/-- Helper `getTypeSize` (ByteParser.cpp:40-48): byte width of a type tag,
0 for an unknown tag. -/
def getTypeSize (t : String) : Nat :=
  if t = "uint8" ∨ t = "int8" ∨ t = "bool" then 1
  else if t = "uint16" ∨ t = "int16" then 2
  else if t = "uint32" ∨ t = "int32" ∨ t = "float" then 4
  else 0

/-- Helper `isValidType` (ByteParser.cpp:34-38): membership in the set of
eight supported type tags. -/
def isValidType (t : String) : Bool :=
  t = "uint8" ∨ t = "int8" ∨ t = "uint16" ∨ t = "int16" ∨
  t = "uint32" ∨ t = "int32" ∨ t = "float" ∨ t = "bool"

/-- Two's-complement reinterpretation of an unsigned `bits`-wide value,
as performed by reading into `int8_t`/`int16_t`/`int32_t`. -/
def toSigned (v bits : Nat) : Int :=
  if v < 2 ^ (bits - 1) then (v : Int) else (v : Int) - 2 ^ bits

/-- `utils::readFromBuffer<T>` for unsigned integer `T` of width `n`
(Utils.hpp:72-82): memcpy into host order followed by a byte swap when the
declared source endianness differs from the host's gives exactly the
source-endian interpretation of the `n` bytes at `off`, independent of the
host.  Big endian: first byte is most significant. -/
def readUInt (buf : List Nat) (off n : Nat) (big : Bool) : Nat :=
  (List.range n).foldl
    (fun acc i =>
      acc + (buf.getD (off + i) 0 % 256) * 2 ^ (8 * (if big then n - 1 - i else i)))
    0

/-- IEEE-754 binary32 value of a 32-bit pattern, as an exact rational.
Infinities and NaNs (exponent 255) have no rational counterpart and are
mapped to 0; no property proved in this file evaluates a float field on
such a pattern. -/
def decodeFloat32 (b : Nat) : ℚ :=
  let sign : Nat := b / 2 ^ 31 % 2
  let ex : Nat := b / 2 ^ 23 % 256
  let mant : Nat := b % 2 ^ 23
  let mag : ℚ :=
    if ex = 0 then (mant : ℚ) / 2 ^ 149
    else if ex = 255 then 0
    else ((2 ^ 23 + mant : Nat) : ℚ) * 2 ^ ex / 2 ^ 150
  if sign = 1 then -mag else mag

/-- The `std::variant<uint64_t, int64_t, double, bool, std::string>` stored
in `ParsedValue` (ByteParser.hpp:14). -/
inductive ParsedValue where
  | u64 (n : Nat)
  | i64 (n : Int)
  | f64 (q : ℚ)
  | bool (b : Bool)
  | str (s : String)
deriving DecidableEq, Repr

/-- `result[field.name] = val` on a `std::map` keyed by strings:
insert-or-assign on the association list. -/
def insertAssoc (m : List (String × ParsedValue)) (k : String) (v : ParsedValue) :
    List (String × ParsedValue) :=
  match m with
  | [] => [(k, v)]
  | (k', v') :: rest => if k' = k then (k, v) :: rest else (k', v') :: insertAssoc rest k v

/-- `FieldDefinition` (ByteParser.hpp:44-53). -/
structure FieldDefinition where
  name : String
  byteOffset : Nat
  bitOffset : Nat
  bitCount : Nat
  type : String
  isBigEndian : Bool
  scale : ℚ
  bias : ℚ
deriving DecidableEq, Repr

/-- The integer branch of the second ("Proper Generic") dispatch chain of
`ByteParser::parse` (ByteParser.cpp:372-414): read into `uVal`/`iVal` per
type, extract bits on the unsigned representation (dropping the signed
flag), then apply the scale/bias rule.  The `(uint64_t)iVal` cast is the
two's-complement wrap `emod 2^64`; `1ULL << bitCount` is defined for the
bit counts a validated layout can carry (`bitCount ≤ 32`). -/
def decodeFieldInt (f : FieldDefinition) (buf : List Nat) : ParsedValue :=
  -- isSigned = (field.type[0] == 'i'); on an empty tag, operator[] yields NUL
  let isSigned : Bool :=
    match f.type.data with
    | [] => false
    | c :: _ => c = 'i'
  let uVal : Nat :=
    if f.type = "uint8" then readUInt buf f.byteOffset 1 f.isBigEndian
    else if f.type = "uint16" then readUInt buf f.byteOffset 2 f.isBigEndian
    else if f.type = "uint32" then readUInt buf f.byteOffset 4 f.isBigEndian
    else 0
  let iVal : Int :=
    if f.type = "int8" then toSigned (readUInt buf f.byteOffset 1 f.isBigEndian) 8
    else if f.type = "int16" then toSigned (readUInt buf f.byteOffset 2 f.isBigEndian) 16
    else if f.type = "int32" then toSigned (readUInt buf f.byteOffset 4 f.isBigEndian) 32
    else 0
  let extracted : Nat × Bool :=
    if 0 < f.bitCount then
      let u := if isSigned then (iVal.emod (2 ^ 64)).toNat else uVal
      ((u >>> f.bitOffset) &&& (2 ^ f.bitCount - 1), false)
    else (uVal, isSigned)
  if f.scale ≠ 1 ∨ f.bias ≠ 0 then
    let d : ℚ := if extracted.2 then (iVal : ℚ) else (extracted.1 : ℚ)
    .f64 (d * f.scale + f.bias)
  else if extracted.2 then .i64 iVal else .u64 extracted.1

/-- Per-field body of `ByteParser::parse` (ByteParser.cpp:292-414) after the
in-bounds guard.  The first dispatch chain (lines 341-363) stores into
`val` only to be unconditionally overwritten by the second chain for every
type it handles (uint8, int8, uint16); its single observable effect is the
`std::get<int64_t>` on the int8 branch (line 344), which throws
`std::bad_variant_access` whenever `process(int8_t{})` returned the double
alternative, i.e. whenever `bitCount > 0` or the scale/bias transform is
not the identity.  The second chain: float always becomes double (bit
logic ignored, line 364); bool reads one byte, optionally narrows to the
`bitOffset` bit, and is true iff nonzero (lines 366-370); everything else
goes through the integer branch. -/
def decodeField (f : FieldDefinition) (buf : List Nat) : Except String ParsedValue :=
  if f.type = "int8" ∧ (0 < f.bitCount ∨ f.scale ≠ 1 ∨ f.bias ≠ 0) then
    .error ("std::bad_variant_access")
  else if f.type = "float" then
    let raw : ℚ := decodeFloat32 (readUInt buf f.byteOffset 4 f.isBigEndian)
    .ok (.f64 (raw * f.scale + f.bias))
  else if f.type = "bool" then
    let raw := buf.getD f.byteOffset 0 % 256
    let raw := if 0 < f.bitCount then (raw >>> f.bitOffset) &&& 1 else raw
    .ok (.bool (raw != 0))
  else
    .ok (decodeFieldInt f buf)

/-- The field loop of `ByteParser::parse(const char*, size_t)`
(ByteParser.cpp:274-418).  The buffer-size check at lines 276-283 is
commented out in the source, so a short buffer is NOT an error; a field
whose byte range does not fit in the supplied buffer is silently skipped
(lines 288-290).  The parser members `startCode_`, `startCodeLength_`,
`totalLength_`, `crcAlgo_` and `crcLength_` are never read by `parse`. -/
def parseGo (buf : List Nat) :
    List FieldDefinition → List (String × ParsedValue) →
    Except String (List (String × ParsedValue))
  | [], result => .ok result
  | f :: rest, result =>
    if buf.length < f.byteOffset + getTypeSize f.type then parseGo buf rest result
    else
      match decodeField f buf with
      | .error e => .error e
      | .ok v => parseGo buf rest (insertAssoc result f.name v)

/-- The configuration state of a `ByteParser` (ByteParser.hpp:180-185). -/
structure ByteParser where
  startCode : List Nat
  startCodeLength : Nat
  totalLength : Nat
  crcAlgo : String
  crcLength : Nat
  fields : List FieldDefinition

/-- `ByteParser::parse(const char*, size_t)` (ByteParser.cpp:274-425):
iterates the configured fields over the buffer.  No length, start-code or
CRC check appears in the source body; only `fields_` is consulted. -/
def ByteParser.parse (p : ByteParser) (buf : List Nat) :
    Except String (List (String × ParsedValue)) :=
  parseGo buf p.fields []

/-! ## CRC-16/MODBUS (Utils.hpp:88-103) -/

/-- One shift step of the inner `for (j = 0; j < 8; j++)` loop
(Utils.hpp:93-99): shift right one bit, XOR with 0xA001 when the bit
shifted out was set.  The register stays below 2^16 throughout. -/
def crc16Step (crc : Nat) : Nat :=
  if crc &&& 1 = 1 then (crc >>> 1) ^^^ 0xA001 else crc >>> 1

/-- `utils::calculateCRC16Modbus` (Utils.hpp:88-103): start from 0xFFFF,
XOR each data byte into the register, then perform eight shift steps.
Data bytes are `uint8_t`, hence the `% 256` at the call boundary. -/
def calculateCRC16Modbus (data : List Nat) : Nat :=
  data.foldl (fun crc b => crc16Step^[8] (crc ^^^ b % 256)) 0xFFFF

/-- Reference CRC-16/MODBUS: initial value 0xFFFF, reflected polynomial
0xA001, data bits fed one at a time, least significant bit of each byte
first, no final XOR. -/
def crc16ModbusRef (data : List Nat) : Nat :=
  data.foldl
    (fun crc b =>
      (List.range 8).foldl (fun c k => crc16Step (c ^^^ ((b % 256) >>> k) &&& 1)) crc)
    0xFFFF

/-! ## Layout validation (ByteParser.cpp:135-257) -/

/-- The 64-bit mask of the field's claimed logical bit positions
(ByteParser.cpp:209-218): all ones for `bitCount == 0`, otherwise
`bitCount` one-bits shifted up by `bitOffset` (a `uint64_t`, hence
`% 2^64`). -/
def fieldFullMask (f : FieldDefinition) : Nat :=
  if f.bitCount = 0 then 2 ^ 64 - 1
  else
    let ones := if f.bitCount = 64 then 2 ^ 64 - 1 else 2 ^ f.bitCount - 1
    (ones <<< f.bitOffset) % 2 ^ 64

/-- The 8-bit submask the field claims inside physical byte `byteOffset + i`
(ByteParser.cpp:220-235): for a big-endian field the first physical byte
carries the most significant underlying byte (`bytePosFromLSB =
size - 1 - i`), for a little-endian field the least significant
(`bytePosFromLSB = i`). -/
def byteMask (f : FieldDefinition) (i : Nat) : Nat :=
  (fieldFullMask f >>> ((if f.isBigEndian then getTypeSize f.type - 1 - i else i) * 8)) &&& 255

/-- Conflict attribution (ByteParser.cpp:241-250), in priority order:
start-code region first, then CRC region, then another field. -/
def classifyOverlap (scLen total crcLen absB : Nat) : String :=
  if 0 < scLen ∧ absB < scLen then ("overlaps with StartCode header region")
  else if 0 < crcLen ∧ total - crcLen ≤ absB then ("overlaps with CRC tail region")
  else ("overlaps with another field")

/-- The collision message thrown at ByteParser.cpp:251-253. -/
def collisionMsg (f : FieldDefinition) (scLen total crcLen absB : Nat) : String :=
  ("Field [" ++ f.name ++ "] collision: ") ++ classifyOverlap scLen total crcLen absB

/-- Mark every ownership byte in `[a, b)` fully claimed (the 0xFF loops at
ByteParser.cpp:143-144 and 156-157). -/
def markRange (u : Nat → Nat) (a b : Nat) : Nat → Nat :=
  fun j => if a ≤ j ∧ j < b then 255 else u j

/-- CRC-region marking (ByteParser.cpp:147-158): bounds check, framing
overlap check against the start-code region, then mark the trailing
`crcLen` bytes. -/
def markCRC (usage : Nat → Nat) (scLen total crcLen : Nat) :
    Except String (Nat → Nat) :=
  if 0 < crcLen then
    if total < crcLen then .error ("CRCLength exceeds TotalLength")
    else if 0 < scLen ∧ total - crcLen < scLen then
      .error ("CRCLength overlaps with StartCodeLength")
    else .ok (markRange usage (total - crcLen) total)
  else .ok usage

/-- Ownership-map initialisation of `loadConfig` (ByteParser.cpp:135-158):
a zeroed per-byte mask over the record, the start-code reserved region and
the CRC reserved region pre-marked fully claimed.  The CRC algorithm tag
is stored at line 124 but never examined. -/
def markRegions (scLen total : Nat) (_algo : String) (crcLen : Nat) :
    Except String (Nat → Nat) :=
  let usage : Nat → Nat := fun _ => 0
  if 0 < scLen then
    if total < scLen then .error ("StartCodeLength exceeds TotalLength")
    else markCRC (markRange usage 0 scLen) scLen total crcLen
  else markCRC usage scLen total crcLen

/-- The per-byte collision loop of `loadConfig` (ByteParser.cpp:220-256)
over the remaining physical byte indices of one field. -/
def checkFieldGo (f : FieldDefinition) (scLen total crcLen : Nat) :
    List Nat → (Nat → Nat) → Except String (Nat → Nat)
  | [], usage => .ok usage
  | i :: rest, usage =>
    if byteMask f i = 0 then checkFieldGo f scLen total crcLen rest usage
    else if usage (f.byteOffset + i) &&& byteMask f i ≠ 0 then
      .error (collisionMsg f scLen total crcLen (f.byteOffset + i))
    else
      checkFieldGo f scLen total crcLen rest
        (fun p => if p = f.byteOffset + i then
            usage (f.byteOffset + i) ||| byteMask f i
          else usage p)

/-- Overlap detection for one field (ByteParser.cpp:220-256): scan the
field's `getTypeSize` physical bytes in order, failing on the first byte
whose claimed submask meets an already-claimed bit, otherwise OR the
submasks into the ownership map. -/
def checkField (f : FieldDefinition) (scLen total crcLen : Nat) (usage : Nat → Nat) :
    Except String (Nat → Nat) :=
  checkFieldGo f scLen total crcLen (List.range (getTypeSize f.type)) usage

/-! ## ParsedValue::get<T> (ByteParser.hpp:20-32) -/

/-- The type argument a caller can instantiate `ParsedValue::get<T>` with
(the five variant types). -/
inductive GetTarget where
  | tU64
  | tI64
  | tF64
  | tBool
  | tStr
deriving DecidableEq, Repr

/-- Truncation toward zero, the defined part of `static_cast` from a
floating-point value to an integer type. -/
def ratTrunc (q : ℚ) : Int :=
  if 0 ≤ q then q.floor else q.ceil

/-- Rendering used by `ParsedValue::toString` (ByteParser.cpp:20-31):
`std::to_string` for the numeric variants, "true"/"false" for bool, the
string itself otherwise.  The fixed-point text `std::to_string(double)`
produces is abstracted by the rational's own rendering; no claim inspects
this text. -/
def pvToString (v : ParsedValue) : String :=
  match v with
  | .u64 n => toString n
  | .i64 n => toString n
  | .f64 q => toString q
  | .bool b => if b then ("true") else ("false")
  | .str s => s

/-- `static_cast<T>(arg)` for a non-string stored alternative `arg` and a
requested variant type `T` (ByteParser.hpp:29).  Integer casts wrap modulo
2^64, floating-point sources truncate toward zero, bool converts to 0/1,
casts to bool test nonzero, casts to double are exact here (IEEE rounding
abstracted). -/
def staticCast (t : GetTarget) (v : ParsedValue) : ParsedValue :=
  match t, v with
  | .tU64, .u64 n => .u64 n
  | .tU64, .i64 n => .u64 (n.emod (2 ^ 64)).toNat
  | .tU64, .f64 q => .u64 ((ratTrunc q).emod (2 ^ 64)).toNat
  | .tU64, .bool b => .u64 (if b then 1 else 0)
  | .tI64, .u64 n => .i64 (toSigned (n % 2 ^ 64) 64)
  | .tI64, .i64 n => .i64 n
  | .tI64, .f64 q => .i64 (toSigned ((ratTrunc q).emod (2 ^ 64)).toNat 64)
  | .tI64, .bool b => .i64 (if b then 1 else 0)
  | .tF64, .u64 n => .f64 (n : ℚ)
  | .tF64, .i64 n => .f64 (n : ℚ)
  | .tF64, .f64 q => .f64 q
  | .tF64, .bool b => .f64 (if b then 1 else 0)
  | .tBool, .u64 n => .bool (n != 0)
  | .tBool, .i64 n => .bool (n != 0)
  | .tBool, .f64 q => .bool (q != 0)
  | .tBool, .bool b => .bool b
  | _, v => v

/-- `ParsedValue::get<T>` (ByteParser.hpp:20-32): a string request returns
`toString()` of whatever is stored; otherwise a stored string throws
("Cannot convert string value to numeric type") and every other stored
alternative is `static_cast` to the requested type. -/
def pvGet (t : GetTarget) (v : ParsedValue) : Except String ParsedValue :=
  if t = .tStr then .ok (.str (pvToString v))
  else
    match v with
    | .str _ => .error ("Cannot convert string value to numeric type")
    | v => .ok (staticCast t v)

/-- Decidable equality of parse results, used to evaluate the embedded
functions on concrete inputs. -/
instance {ε α : Type} [DecidableEq ε] [DecidableEq α] : DecidableEq (Except ε α)
  | .error a, .error b =>
    if h : a = b then .isTrue (by rw [h]) else .isFalse (by intro hc; cases hc; exact h rfl)
  | .error _, .ok _ => .isFalse (by intro hc; cases hc)
  | .ok _, .error _ => .isFalse (by intro hc; cases hc)
  | .ok a, .ok b =>
    if h : a = b then .isTrue (by rw [h]) else .isFalse (by intro hc; cases hc; exact h rfl)

/-! ## CRC equivalence lemmas -/

theorem testBit_one_iff (i : Nat) : (1 : Nat).testBit i = decide (i < 1) := by
  simpa using Nat.testBit_two_pow_sub_one 1 i

theorem crc16Step_xor_and_one (c e : Nat) : (c ^^^ e <<< 1) &&& 1 = c &&& 1 := by
  apply Nat.eq_of_testBit_eq
  intro i
  simp only [Nat.testBit_and, Nat.testBit_xor, Nat.testBit_shiftLeft, testBit_one_iff]
  cases i with
  | zero => simp
  | succ j => simp

theorem crc16Step_xor_shiftRight (c e : Nat) :
    (c ^^^ e <<< 1) >>> 1 = c >>> 1 ^^^ e := by
  apply Nat.eq_of_testBit_eq
  intro i
  simp only [Nat.testBit_xor, Nat.testBit_shiftRight _, Nat.testBit_shiftLeft]
  simp [Nat.add_comm 1 i]

/-- Feeding an even value XORed into the register commutes with one CRC
shift step: the low bit is untouched and the rest shifts down. -/
theorem crc16Step_xor_shiftLeft (c e : Nat) :
    crc16Step (c ^^^ e <<< 1) = crc16Step c ^^^ e := by
  unfold crc16Step
  rw [crc16Step_xor_and_one, crc16Step_xor_shiftRight]
  by_cases hc : c &&& 1 = 1
  · rw [if_pos hc, if_pos hc, Nat.xor_assoc, Nat.xor_comm e 0xA001, ← Nat.xor_assoc]
  · rw [if_neg hc, if_neg hc]

/-- Low-bit decomposition of a truncated value, as a disjoint XOR. -/
theorem mod_two_pow_succ_decomp (b n : Nat) :
    b % 2 ^ (n + 1) = (b &&& 1) ^^^ ((b >>> 1) % 2 ^ n) <<< 1 := by
  apply Nat.eq_of_testBit_eq
  intro i
  simp only [Nat.testBit_mod_two_pow, Nat.testBit_xor, Nat.testBit_and,
    Nat.testBit_shiftLeft, testBit_one_iff, Nat.testBit_mod_two_pow]
  cases i with
  | zero => simp
  | succ j =>
    simp only [Nat.testBit_shiftRight _]
    simp [Nat.add_comm 1 j, Nat.succ_lt_succ_iff]

/-- XORing a whole byte into the register and shifting eight times equals
feeding the byte's bits one at a time, least significant first. -/
theorem crc16_iterate_eq_bits (n : Nat) :
    ∀ c b : Nat, crc16Step^[n] (c ^^^ b % 2 ^ n) =
      (List.range n).foldl (fun a k => crc16Step (a ^^^ (b >>> k) &&& 1)) c := by
  induction n with
  | zero => intro c b; simp [Nat.mod_one]
  | succ m ih =>
    intro c b
    have hstep : crc16Step (c ^^^ b % 2 ^ (m + 1)) =
        crc16Step (c ^^^ b &&& 1) ^^^ (b >>> 1) % 2 ^ m := by
      rw [mod_two_pow_succ_decomp, ← Nat.xor_assoc, crc16Step_xor_shiftLeft]
    rw [Function.iterate_succ_apply, hstep, ih,
      List.range_succ_eq_map, List.foldl_cons, List.foldl_map]
    simp [← Nat.shiftRight_add, Nat.add_comm 1]

/-! ## Validation lemmas -/

theorem getTypeSize_le_four (t : String) : getTypeSize t ≤ 4 := by
  unfold getTypeSize
  split
  · omega
  · split
    · omega
    · split <;> omega

/-- Bit `t` of the 64-bit field mask is set iff the field claims logical
bit position `t`: every position when `bitCount = 0`, else the positions
in `[bitOffset, bitOffset + bitCount)`. -/
theorem fieldFullMask_testBit (f : FieldDefinition)
    (hbo : 0 < f.bitCount → f.bitOffset + f.bitCount ≤ 64)
    (hbc32 : f.bitCount ≤ 32)
    (t : Nat) (ht : t < 64) :
    ((fieldFullMask f).testBit t = true ↔
      (f.bitCount = 0 ∨ (f.bitOffset ≤ t ∧ t < f.bitOffset + f.bitCount))) := by
  unfold fieldFullMask
  by_cases h0 : f.bitCount = 0
  · rw [if_pos h0, Nat.testBit_two_pow_sub_one]
    simp [h0, ht]
  · rw [if_neg h0, if_neg (by omega : f.bitCount ≠ 64)]
    have hlt : (2 ^ f.bitCount - 1) <<< f.bitOffset < 2 ^ 64 := by
      rw [Nat.shiftLeft_eq]
      have h1 : (2 ^ f.bitCount - 1) * 2 ^ f.bitOffset < 2 ^ f.bitCount * 2 ^ f.bitOffset := by
        have hp : 0 < 2 ^ f.bitOffset := Nat.pos_pow_of_pos _ (by norm_num)
        have hq : 2 ^ f.bitCount - 1 < 2 ^ f.bitCount :=
          Nat.sub_lt (Nat.pos_pow_of_pos _ (by norm_num)) (by norm_num)
        exact Nat.mul_lt_mul_of_lt_of_le hq (le_refl _) hp
      have h2 : 2 ^ f.bitCount * 2 ^ f.bitOffset = 2 ^ (f.bitCount + f.bitOffset) :=
        (pow_add 2 f.bitCount f.bitOffset).symm
      have h3 : (2 : Nat) ^ (f.bitCount + f.bitOffset) ≤ 2 ^ 64 :=
        Nat.pow_le_pow_right (by norm_num) (by omega)
      omega
    rw [Nat.mod_eq_of_lt hlt, Nat.testBit_shiftLeft, Nat.testBit_two_pow_sub_one]
    simp only [h0, false_or, Bool.and_eq_true, decide_eq_true_eq]
    omega

/-- The 8-bit submask of physical byte `byteOffset + i` holds exactly the
field's claimed logical bits, mapped through the endian-aware byte order:
bit `bb` of physical byte `i` corresponds to logical position
`(size - 1 - i) * 8 + bb` for a big-endian field and `i * 8 + bb` for a
little-endian one. -/
theorem byteMask_testBit (f : FieldDefinition)
    (hbit : 0 < f.bitCount → f.bitOffset + f.bitCount ≤ 8 * getTypeSize f.type)
    (i : Nat) (hi : i < getTypeSize f.type) (bb : Nat) (hb : bb < 8) :
    ((byteMask f i).testBit bb = true ↔
      (f.bitCount = 0 ∨
        (f.bitOffset ≤ (if f.isBigEndian then getTypeSize f.type - 1 - i else i) * 8 + bb ∧
         (if f.isBigEndian then getTypeSize f.type - 1 - i else i) * 8 + bb <
           f.bitOffset + f.bitCount))) := by
  have hsz := getTypeSize_le_four f.type
  have hposle : (if f.isBigEndian then getTypeSize f.type - 1 - i else i) ≤ 3 := by
    split <;> omega
  have hbo : 0 < f.bitCount → f.bitOffset + f.bitCount ≤ 64 := by
    intro h
    have := hbit h
    omega
  have hbc32 : f.bitCount ≤ 32 := by
    by_cases h : 0 < f.bitCount
    · have := hbit h
      omega
    · omega
  have h255 : Nat.testBit 255 bb = decide (bb < 8) := by
    simpa using Nat.testBit_two_pow_sub_one 8 bb
  unfold byteMask
  rw [Nat.testBit_and, Nat.testBit_shiftRight _, h255,
    (by simp [hb] : decide (bb < 8) = true), Bool.and_true]
  exact fieldFullMask_testBit f hbo hbc32 _ (by omega)

/-- On success the pre-marked ownership map is 0xFF exactly on the
start-code reserved region and the CRC reserved region, 0 elsewhere. -/
theorem markRegions_ok_char (scLen total crcLen : Nat) (algo : String) (u0 : Nat → Nat)
    (h : markRegions scLen total algo crcLen = .ok u0) (j : Nat) :
    u0 j = if (0 < scLen ∧ j < scLen) ∨ (0 < crcLen ∧ total - crcLen ≤ j ∧ j < total)
      then 255 else 0 := by
  unfold markRegions markCRC at h
  by_cases h1 : 0 < scLen <;> by_cases h2 : total < scLen <;>
    by_cases h3 : 0 < crcLen <;> by_cases h4 : total < crcLen <;>
    by_cases h5 : total - crcLen < scLen <;>
    simp [h1, h2, h3, h4, h5] at h <;>
    rw [← h] <;> simp [markRange] <;> split_ifs <;> omega

theorem checkFieldGo_isOk_false_iff (f : FieldDefinition) (scLen total crcLen : Nat) :
    ∀ (n lo : Nat) (usage : Nat → Nat),
      ((checkFieldGo f scLen total crcLen (List.range' lo n) usage).isOk = false ↔
        ∃ j, lo ≤ j ∧ j < lo + n ∧ usage (f.byteOffset + j) &&& byteMask f j ≠ 0) := by
  intro n
  induction n with
  | zero =>
    intro lo usage
    rw [show List.range' lo 0 = [] from rfl]
    simp [checkFieldGo, Except.isOk, Except.toBool]
    omega
  | succ m ih =>
    intro lo usage
    rw [List.range'_succ]
    by_cases hm : byteMask f lo = 0
    · rw [show checkFieldGo f scLen total crcLen (lo :: List.range' (lo + 1) m) usage =
          checkFieldGo f scLen total crcLen (List.range' (lo + 1) m) usage from by
        simp [checkFieldGo, hm]]
      rw [ih]
      constructor
      · rintro ⟨j, hj1, hj2, hj3⟩
        exact ⟨j, by omega, by omega, hj3⟩
      · rintro ⟨j, hj1, hj2, hj3⟩
        rcases Nat.eq_or_lt_of_le hj1 with he | hl
        · exfalso
          rw [← he, hm] at hj3
          simp at hj3
        · exact ⟨j, by omega, by omega, hj3⟩
    · by_cases hc : usage (f.byteOffset + lo) &&& byteMask f lo = 0
      · rw [show checkFieldGo f scLen total crcLen (lo :: List.range' (lo + 1) m) usage =
            checkFieldGo f scLen total crcLen (List.range' (lo + 1) m)
              (fun p => if p = f.byteOffset + lo then
                  usage (f.byteOffset + lo) ||| byteMask f lo
                else usage p) from by
          simp [checkFieldGo, hm, hc]]
        rw [ih]
        constructor
        · rintro ⟨j, hj1, hj2, hj3⟩
          rw [if_neg (by omega : ¬ f.byteOffset + j = f.byteOffset + lo)] at hj3
          exact ⟨j, by omega, by omega, hj3⟩
        · rintro ⟨j, hj1, hj2, hj3⟩
          have hj : lo + 1 ≤ j := by
            rcases Nat.eq_or_lt_of_le hj1 with he | hl
            · exfalso
              rw [← he] at hj3
              exact hj3 hc
            · omega
          refine ⟨j, hj, by omega, ?_⟩
          rw [if_neg (by omega : ¬ f.byteOffset + j = f.byteOffset + lo)]
          exact hj3
      · rw [show checkFieldGo f scLen total crcLen (lo :: List.range' (lo + 1) m) usage =
            .error (collisionMsg f scLen total crcLen (f.byteOffset + lo)) from by
          simp [checkFieldGo, hm, hc]]
        simp [Except.isOk, Except.toBool]
        exact ⟨lo, le_refl lo, by omega, hc⟩

theorem checkFieldGo_error_first (f : FieldDefinition) (scLen total crcLen : Nat) :
    ∀ (n lo : Nat) (usage : Nat → Nat) (e : String),
      checkFieldGo f scLen total crcLen (List.range' lo n) usage = .error e →
        ∃ j, lo ≤ j ∧ j < lo + n ∧ usage (f.byteOffset + j) &&& byteMask f j ≠ 0 ∧
          (∀ j', lo ≤ j' → j' < j → usage (f.byteOffset + j') &&& byteMask f j' = 0) ∧
          e = collisionMsg f scLen total crcLen (f.byteOffset + j) := by
  intro n
  induction n with
  | zero =>
    intro lo usage e h
    rw [show List.range' lo 0 = [] from rfl] at h
    simp [checkFieldGo] at h
  | succ m ih =>
    intro lo usage e h
    rw [List.range'_succ] at h
    by_cases hm : byteMask f lo = 0
    · rw [show checkFieldGo f scLen total crcLen (lo :: List.range' (lo + 1) m) usage =
          checkFieldGo f scLen total crcLen (List.range' (lo + 1) m) usage from by
        simp [checkFieldGo, hm]] at h
      obtain ⟨j, hj1, hj2, hj3, hj4, hj5⟩ := ih (lo + 1) usage e h
      refine ⟨j, by omega, by omega, hj3, ?_, hj5⟩
      intro j' hj'1 hj'2
      rcases Nat.eq_or_lt_of_le hj'1 with he | hl
      · rw [← he, hm]
        simp
      · exact hj4 j' (by omega) hj'2
    · by_cases hc : usage (f.byteOffset + lo) &&& byteMask f lo = 0
      · rw [show checkFieldGo f scLen total crcLen (lo :: List.range' (lo + 1) m) usage =
            checkFieldGo f scLen total crcLen (List.range' (lo + 1) m)
              (fun p => if p = f.byteOffset + lo then
                  usage (f.byteOffset + lo) ||| byteMask f lo
                else usage p) from by
          simp [checkFieldGo, hm, hc]] at h
        obtain ⟨j, hj1, hj2, hj3, hj4, hj5⟩ := ih (lo + 1) _ e h
        rw [if_neg (by omega : ¬ f.byteOffset + j = f.byteOffset + lo)] at hj3
        refine ⟨j, by omega, by omega, hj3, ?_, hj5⟩
        intro j' hj'1 hj'2
        rcases Nat.eq_or_lt_of_le hj'1 with he | hl
        · rw [← he]
          exact hc
        · have := hj4 j' (by omega) hj'2
          rw [if_neg (by omega : ¬ f.byteOffset + j' = f.byteOffset + lo)] at this
          exact this
      · rw [show checkFieldGo f scLen total crcLen (lo :: List.range' (lo + 1) m) usage =
            .error (collisionMsg f scLen total crcLen (f.byteOffset + lo)) from by
          simp [checkFieldGo, hm, hc]] at h
        refine ⟨lo, le_refl lo, by omega, hc, ?_, ?_⟩
        · intro j' hj'1 hj'2
          omega
        · cases h
          rfl

theorem checkFieldGo_ok_marks (f : FieldDefinition) (scLen total crcLen : Nat) :
    ∀ (n lo : Nat) (usage u' : Nat → Nat),
      checkFieldGo f scLen total crcLen (List.range' lo n) usage = .ok u' →
        (∀ j, lo ≤ j → j < lo + n →
          u' (f.byteOffset + j) = usage (f.byteOffset + j) ||| byteMask f j) ∧
        (∀ p, (∀ j, lo ≤ j → j < lo + n → p ≠ f.byteOffset + j) → u' p = usage p) := by
  intro n
  induction n with
  | zero =>
    intro lo usage u' h
    rw [show List.range' lo 0 = [] from rfl] at h
    simp [checkFieldGo] at h
    constructor
    · intro j hj1 hj2
      omega
    · intro p _
      rw [← h]
  | succ m ih =>
    intro lo usage u' h
    rw [List.range'_succ] at h
    by_cases hm : byteMask f lo = 0
    · rw [show checkFieldGo f scLen total crcLen (lo :: List.range' (lo + 1) m) usage =
          checkFieldGo f scLen total crcLen (List.range' (lo + 1) m) usage from by
        simp [checkFieldGo, hm]] at h
      obtain ⟨ha, hb2⟩ := ih (lo + 1) usage u' h
      constructor
      · intro j hj1 hj2
        rcases Nat.eq_or_lt_of_le hj1 with he | hl
        · rw [← he, hm, Nat.or_zero]
          apply hb2
          intro j' hj'1 hj'2
          omega
        · exact ha j (by omega) (by omega)
      · intro p hp
        apply hb2
        intro j hj1 hj2
        exact hp j (by omega) (by omega)
    · by_cases hc : usage (f.byteOffset + lo) &&& byteMask f lo = 0
      · rw [show checkFieldGo f scLen total crcLen (lo :: List.range' (lo + 1) m) usage =
            checkFieldGo f scLen total crcLen (List.range' (lo + 1) m)
              (fun p => if p = f.byteOffset + lo then
                  usage (f.byteOffset + lo) ||| byteMask f lo
                else usage p) from by
          simp [checkFieldGo, hm, hc]] at h
        obtain ⟨ha, hb2⟩ := ih (lo + 1) _ u' h
        constructor
        · intro j hj1 hj2
          rcases Nat.eq_or_lt_of_le hj1 with he | hl
          · rw [← he]
            have := hb2 (f.byteOffset + lo) (by intro j' hj'1 hj'2; omega)
            rw [this, if_pos rfl]
          · have := ha j (by omega) (by omega)
            rw [this, if_neg (by omega : ¬ f.byteOffset + j = f.byteOffset + lo)]
        · intro p hp
          have := hb2 p (by intro j hj1 hj2; exact hp j (by omega) (by omega))
          rw [this, if_neg (hp lo (le_refl _) (by omega))]
      · rw [show checkFieldGo f scLen total crcLen (lo :: List.range' (lo + 1) m) usage =
            .error (collisionMsg f scLen total crcLen (f.byteOffset + lo)) from by
          simp [checkFieldGo, hm, hc]] at h
        cases h

/-- A machine word shares a set bit with another exactly when their AND is
nonzero. -/
theorem and_ne_zero_iff_shared_bit (x y : Nat) :
    x &&& y ≠ 0 ↔ ∃ k, x.testBit k = true ∧ y.testBit k = true := by
  constructor
  · intro h
    by_contra hc
    push_neg at hc
    apply h
    apply Nat.eq_of_testBit_eq
    intro k
    have := hc k
    simp only [Nat.testBit_and, Nat.zero_testBit]
    cases hx : x.testBit k
    · simp
    · simp [this hx]
  · rintro ⟨k, h1, h2⟩ h0
    have := congrArg (fun n => n.testBit k) h0
    simp [Nat.testBit_and, h1, h2, Nat.zero_testBit] at this

/-- A claimed submask only carries bits below 8. -/
theorem byteMask_testBit_lt_eight (f : FieldDefinition) (i bb : Nat)
    (h : (byteMask f i).testBit bb = true) : bb < 8 := by
  unfold byteMask at h
  rw [Nat.testBit_and] at h
  have h2 := (Bool.and_eq_true _ _).mp h |>.2
  have h255 : Nat.testBit 255 bb = decide (bb < 8) := by
    simpa using Nat.testBit_two_pow_sub_one 8 bb
  rw [h255] at h2
  exact of_decide_eq_true h2

/-- A sample field used to witness the validation theorem: a big-endian
uint16 at byte offset 2 claiming bits [4, 12) of its 16-bit value. -/
def sampleField : FieldDefinition :=
  ⟨"w", 2, 4, 8, "uint16", true, 1, 0⟩

/-- A sample pre-marked ownership map over a 6-byte record: bytes 0-1
(start code) and 4-5 (CRC) fully claimed. -/
def sampleUsage : Nat → Nat :=
  fun j => if j < 2 ∨ 4 ≤ j then 255 else 0

/-! ## Claim theorems -/

/-- C1: the claim says a buffer shorter than `totalLength` makes `parse`
fail with a size error and produce no partial result.  The source has the
size check commented out (ByteParser.cpp:276-283) and instead silently
skips every field that does not fit (lines 288-290): on a 1-byte buffer
against a 3-byte layout with fields at offsets 0 and 2, `parse` returns a
partial map holding only the first field.  The repository's own test
(test/main.cpp:466-477) and the header documentation (ByteParser.hpp:142)
expect the throw. -/
theorem C1_short_buffer_is_silently_skipped :
    ByteParser.parse
      ⟨[], 0, 3, "", 0,
        [⟨"a", 0, 0, 0, "uint8", true, 1, 0⟩, ⟨"b", 2, 0, 0, "uint8", true, 1, 0⟩]⟩
      [5] = .ok [("a", .u64 5)] := by
  decide

/-- C2: the claim says `parse` compares the buffer's first bytes against a
configured start-code literal and fails on a mismatch.  The source `parse`
never reads `startCode_` at all: with literal 0xAA 0xBB configured and a
buffer whose second byte is 0xCC (the exact scenario test/main.cpp:410-421
expects to throw "Invalid Start Code"), `parse` succeeds. -/
theorem C2_start_code_is_never_checked :
    ByteParser.parse
      ⟨[0xAA, 0xBB], 2, 3, "", 0, [⟨"v", 2, 0, 0, "uint8", true, 1, 0⟩]⟩
      [0xAA, 0xCC, 10] = .ok [("v", .u64 10)] := by
  decide

/-- C3: the claim says `parse` computes CRC-16/MODBUS over the data region
and fails on a mismatch with the stored little-endian trailer.  The source
`parse` performs no CRC computation or comparison: with algorithm "CRC16"
and length 2 configured over a 4-byte record, a buffer whose stored CRC is
0x0000 while the true CRC of its data bytes [1, 2] is nonzero still parses
successfully (test/main.cpp:444-455 expects "CRC Check Failed" here). -/
theorem C3_crc_is_never_checked :
    calculateCRC16Modbus [1, 2] ≠ 0 ∧
    ByteParser.parse
      ⟨[], 0, 4, "CRC16", 2, [⟨"val", 0, 0, 0, "uint16", true, 1, 0⟩]⟩
      [1, 2, 0, 0] = .ok [("val", .u64 258)] := by
  constructor
  · decide
  · decide

/-- C6: the claim says every integer field (including int8) with a
non-identity scale/bias decodes to the double raw * scale + bias, and
otherwise keeps native signedness.  For int8 the leftover first dispatch
chain (ByteParser.cpp:344-346) calls std::get on a double-holding variant
and the whole parse throws std::bad_variant_access; the other integer
types behave as claimed (uint8 with scale 2 gives double 10, int16 without
transform stays signed). -/
theorem C6_int8_with_scale_throws :
    ByteParser.parse
      ⟨[], 0, 1, "", 0, [⟨"s8", 0, 0, 0, "int8", true, 2, 0⟩]⟩
      [5] = .error ("std::bad_variant_access") ∧
    ByteParser.parse
      ⟨[], 0, 1, "", 0, [⟨"u8", 0, 0, 0, "uint8", true, 2, 0⟩]⟩
      [5] = .ok [("u8", .f64 10)] ∧
    ByteParser.parse
      ⟨[], 0, 2, "", 0, [⟨"s16", 0, 0, 0, "int16", true, 1, 0⟩]⟩
      [255, 251] = .ok [("s16", .i64 (-5))] := by
  refine ⟨by decide, ?_, by decide⟩
  simp +decide [ByteParser.parse, parseGo, decodeField, decodeFieldInt, readUInt,
    getTypeSize, insertAssoc, List.range_succ]
  norm_num

/-- C7: the claim says bit extraction (shift by bitOffset, mask to
bitCount bits, treated as unsigned) succeeds without an exception for
every supported integer type including the signed ones.  An int16
bitfield indeed extracts unsigned (0xFFFF with bitCount 4 gives 15, no
sign extension), but an int8 bitfield makes the whole parse throw
std::bad_variant_access from the leftover first dispatch chain
(ByteParser.cpp:344-346). -/
theorem C7_int8_bitfield_throws :
    ByteParser.parse
      ⟨[], 0, 2, "", 0, [⟨"s16b", 0, 0, 4, "int16", true, 1, 0⟩]⟩
      [255, 255] = .ok [("s16b", .u64 15)] ∧
    ByteParser.parse
      ⟨[], 0, 1, "", 0, [⟨"s8b", 0, 0, 1, "int8", true, 1, 0⟩]⟩
      [1] = .error ("std::bad_variant_access") := by
  decide

/-- C4: loadConfig's per-bit overlap validation (ByteParser.cpp:135-158,
208-257): (i) the ownership map pre-marks every byte of the start-code
reserved region and of the CRC reserved region fully claimed; (ii) the
per-byte submask a field claims maps its logical bit range onto physical
bytes endian-aware — for a big-endian field, bit bb of physical byte
byteOffset + i corresponds to logical position (size - 1 - i) * 8 + bb
(most significant underlying byte first), for a little-endian field to
i * 8 + bb; (iii) the field is rejected exactly when one of the bits it
claims is already claimed in the map; (iv) the rejection names the first
conflicting physical byte through `classifyOverlap`, whose definition
attributes with priority start-code region, then CRC region, then
another field; (v) on success exactly the claimed bits are OR-ed into
the map and all other entries are unchanged. -/
theorem C4_overlap_validation
    (f : FieldDefinition) (scLen total crcLen : Nat) (algo : String) (usage : Nat → Nat)
    (hbit : 0 < f.bitCount → f.bitOffset + f.bitCount ≤ 8 * getTypeSize f.type) :
    (∀ u0, markRegions scLen total algo crcLen = .ok u0 →
      ∀ j, u0 j = if (0 < scLen ∧ j < scLen) ∨ (0 < crcLen ∧ total - crcLen ≤ j ∧ j < total)
        then 255 else 0) ∧
    (∀ i, i < getTypeSize f.type → ∀ bb, bb < 8 →
      ((byteMask f i).testBit bb = true ↔
        (f.bitCount = 0 ∨
          (f.bitOffset ≤ (if f.isBigEndian then getTypeSize f.type - 1 - i else i) * 8 + bb ∧
           (if f.isBigEndian then getTypeSize f.type - 1 - i else i) * 8 + bb <
             f.bitOffset + f.bitCount)))) ∧
    ((checkField f scLen total crcLen usage).isOk = false ↔
      ∃ i, i < getTypeSize f.type ∧ ∃ bb,
        (byteMask f i).testBit bb = true ∧
        (usage (f.byteOffset + i)).testBit bb = true) ∧
    (∀ e, checkField f scLen total crcLen usage = .error e →
      ∃ i, i < getTypeSize f.type ∧ usage (f.byteOffset + i) &&& byteMask f i ≠ 0 ∧
        (∀ i', i' < i → usage (f.byteOffset + i') &&& byteMask f i' = 0) ∧
        e = collisionMsg f scLen total crcLen (f.byteOffset + i)) ∧
    (∀ u', checkField f scLen total crcLen usage = .ok u' →
      (∀ i, i < getTypeSize f.type →
        u' (f.byteOffset + i) = usage (f.byteOffset + i) ||| byteMask f i) ∧
      (∀ p, (∀ i, i < getTypeSize f.type → p ≠ f.byteOffset + i) → u' p = usage p)) := by
  refine ⟨?_, ?_, ?_, ?_, ?_⟩
  · intro u0 h j
    exact markRegions_ok_char scLen total crcLen algo u0 h j
  · intro i hi bb hb
    exact byteMask_testBit f hbit i hi bb hb
  · unfold checkField
    rw [List.range_eq_range', checkFieldGo_isOk_false_iff]
    constructor
    · rintro ⟨j, hj1, hj2, hj3⟩
      obtain ⟨k, hk1, hk2⟩ := (and_ne_zero_iff_shared_bit _ _).mp hj3
      exact ⟨j, by omega, k, hk2, hk1⟩
    · rintro ⟨i, hi, bb, hb1, hb2⟩
      refine ⟨i, by omega, by omega, ?_⟩
      exact (and_ne_zero_iff_shared_bit _ _).mpr ⟨bb, hb2, hb1⟩
  · intro e h
    unfold checkField at h
    rw [List.range_eq_range'] at h
    obtain ⟨j, hj1, hj2, hj3, hj4, hj5⟩ :=
      checkFieldGo_error_first f scLen total crcLen _ 0 usage e h
    exact ⟨j, by omega, hj3, fun i' hi' => hj4 i' (by omega) hi', hj5⟩
  · intro u' h
    unfold checkField at h
    rw [List.range_eq_range'] at h
    obtain ⟨ha, hb2⟩ := checkFieldGo_ok_marks f scLen total crcLen _ 0 usage u' h
    exact ⟨fun i hi => ha i (by omega) (by omega),
      fun p hp => hb2 p (fun j hj1 hj2 => hp j (by omega))⟩

/-- C4 witness: the validation theorem applied to `sampleField` over a
6-byte record with a 2-byte start code and a 2-byte CRC, starting from
the pre-marked `sampleUsage`. -/
theorem C4_overlap_validation_witness :
    (0 < sampleField.bitCount →
      sampleField.bitOffset + sampleField.bitCount ≤ 8 * getTypeSize sampleField.type) ∧
    ((∀ u0, markRegions 2 6 ("CRC16") 2 = .ok u0 →
      ∀ j, u0 j = if (0 < (2:Nat) ∧ j < 2) ∨ (0 < (2:Nat) ∧ 6 - 2 ≤ j ∧ j < 6)
        then 255 else 0) ∧
    (∀ i, i < getTypeSize sampleField.type → ∀ bb, bb < 8 →
      ((byteMask sampleField i).testBit bb = true ↔
        (sampleField.bitCount = 0 ∨
          (sampleField.bitOffset ≤
            (if sampleField.isBigEndian then getTypeSize sampleField.type - 1 - i else i)
              * 8 + bb ∧
           (if sampleField.isBigEndian then getTypeSize sampleField.type - 1 - i else i)
              * 8 + bb < sampleField.bitOffset + sampleField.bitCount)))) ∧
    ((checkField sampleField 2 6 2 sampleUsage).isOk = false ↔
      ∃ i, i < getTypeSize sampleField.type ∧ ∃ bb,
        (byteMask sampleField i).testBit bb = true ∧
        (sampleUsage (sampleField.byteOffset + i)).testBit bb = true) ∧
    (∀ e, checkField sampleField 2 6 2 sampleUsage = .error e →
      ∃ i, i < getTypeSize sampleField.type ∧
        sampleUsage (sampleField.byteOffset + i) &&& byteMask sampleField i ≠ 0 ∧
        (∀ i', i' < i →
          sampleUsage (sampleField.byteOffset + i') &&& byteMask sampleField i' = 0) ∧
        e = collisionMsg sampleField 2 6 2 (sampleField.byteOffset + i)) ∧
    (∀ u', checkField sampleField 2 6 2 sampleUsage = .ok u' →
      (∀ i, i < getTypeSize sampleField.type →
        u' (sampleField.byteOffset + i) =
          sampleUsage (sampleField.byteOffset + i) ||| byteMask sampleField i) ∧
      (∀ p, (∀ i, i < getTypeSize sampleField.type → p ≠ sampleField.byteOffset + i) →
        u' p = sampleUsage p))) :=
  ⟨by decide,
    C4_overlap_validation sampleField 2 6 2 ("CRC16") sampleUsage (by decide)⟩

/-- C5: `calculateCRC16Modbus` computes the reference CRC-16/MODBUS:
it equals the bit-serial formulation (initial 0xFFFF, reflected polynomial
0xA001, data bits fed LSB-first, no final XOR) on every byte sequence, and
it produces the standard CRC-16/MODBUS check value 0x4B37 on the ASCII
bytes of "123456789". -/
theorem C5_crc16_matches_reference :
    (∀ data : List Nat, calculateCRC16Modbus data = crc16ModbusRef data) ∧
    calculateCRC16Modbus [0x31, 0x32, 0x33, 0x34, 0x35, 0x36, 0x37, 0x38, 0x39] =
      0x4B37 := by
  constructor
  · intro data
    unfold calculateCRC16Modbus crc16ModbusRef
    congr 1
    funext c b
    have hmod : (b % 256) % 2 ^ 8 = b % 256 := by omega
    have h := crc16_iterate_eq_bits 8 c (b % 256)
    rw [hmod] at h
    exact h
  · decide

/-- C8 counterexample: the claim says requesting a numeric type from a
stored boolean fails with a type-mismatch error.  In the source,
get<T> static_casts every non-string stored alternative to T
(ByteParser.hpp:29): requesting U64 from a stored boolean true succeeds
and yields 1. -/
theorem C8_counterexample_numeric_from_bool_succeeds :
    pvGet .tU64 (.bool true) = .ok (.u64 1) := by
  decide

/-- C8 amended: get<T> fails exactly when the stored variant is the
string alternative and the requested type is not string; every non-string
stored value is static_cast to the requested type (boolean included), and
a string request never fails (it returns toString() of the stored
value). -/
theorem C8_get_fails_iff_string_source (t : GetTarget) (v : ParsedValue) :
    (pvGet t v).isOk = false ↔ (t ≠ .tStr ∧ ∃ s, v = .str s) := by
  cases t <;> cases v <;> simp [pvGet, Except.isOk, Except.toBool, staticCast]

/-- C10: a bool field with bitCount 0 decodes its single underlying byte
(no endian swap for 1-byte reads) to true exactly when the byte is
nonzero — the cast (bool)raw at ByteParser.cpp:370 tests nonzero, so any
nonzero value yields true, not only 1. -/
theorem C10_bool_field_true_iff_nonzero
    (p : ByteParser) (f : FieldDefinition) (buf : List Nat)
    (hf : p.fields = [f]) (ht : f.type = "bool") (hbc : f.bitCount = 0)
    (hlen : f.byteOffset + 1 ≤ buf.length) :
    p.parse buf = .ok [(f.name, .bool (buf.getD f.byteOffset 0 % 256 != 0))] := by
  have hno : ¬ buf.length < f.byteOffset + getTypeSize f.type := by
    rw [ht]
    simp only [getTypeSize]
    norm_num
    omega
  have hdf : decodeField f buf = .ok (.bool (buf.getD f.byteOffset 0 % 256 != 0)) := by
    unfold decodeField
    rw [ht]
    simp [hbc]
  simp [ByteParser.parse, hf, parseGo, hno, hdf, insertAssoc]

/-- C10 witness: a concrete bool field over the byte 7 — nonzero but not
1 — decodes to true. -/
theorem C10_bool_field_true_iff_nonzero_witness :
    (⟨[], 0, 2, "", 0, [⟨"flag", 1, 0, 0, "bool", true, 1, 0⟩]⟩ : ByteParser).fields =
      [⟨"flag", 1, 0, 0, "bool", true, 1, 0⟩] ∧
    (1 : Nat) + 1 ≤ ([0, 7] : List Nat).length ∧
    ByteParser.parse ⟨[], 0, 2, "", 0, [⟨"flag", 1, 0, 0, "bool", true, 1, 0⟩]⟩ [0, 7] =
      .ok [("flag", .bool true)] :=
  ⟨rfl, by decide,
    C10_bool_field_true_iff_nonzero _ _ _ rfl rfl rfl (by decide)⟩

/-- C9 counterexample: the claim says validation rejects any CRC
algorithm tag other than "CRC16" and rejects "CRC16" with a reserved
length other than 2.  loadConfig stores the tag without examining it
(ByteParser.cpp:124) and bounds-checks only the reserved length: a config
with tag "CRC32" and length 4, and one with tag "CRC16" and length 3,
both pass the header validation of a 10-byte record. -/
theorem C9_counterexample_crc_config_unchecked :
    (markRegions 0 10 ("CRC32") 4).isOk = true ∧
    (markRegions 0 10 ("CRC16") 3).isOk = true := by
  decide

/-- C9 amended: header validation never examines the CRC algorithm tag
and accepts any reserved length that fits: it fails exactly when the
start-code reserved region exceeds the record, the CRC reserved region
exceeds the record, or the two reserved regions overlap. -/
theorem C9_crc_validation_checks_only_bounds
    (scLen total crcLen : Nat) (algo : String) :
    ((markRegions scLen total algo crcLen).isOk = true ↔
      ((0 < scLen → scLen ≤ total) ∧
       (0 < crcLen → crcLen ≤ total ∧ (0 < scLen → scLen ≤ total - crcLen)))) ∧
    (∀ algo2 : String, markRegions scLen total algo crcLen =
      markRegions scLen total algo2 crcLen) := by
  constructor
  · unfold markRegions markCRC
    by_cases h1 : 0 < scLen <;> by_cases h2 : total < scLen <;>
      by_cases h3 : 0 < crcLen <;> by_cases h4 : total < crcLen <;>
      by_cases h5 : total - crcLen < scLen <;>
      simp [h1, h2, h3, h4, h5, Except.isOk, Except.toBool] <;> omega
  · intro algo2
    rfl

end EasyByteParser
